import Mathlib

/-!
# Verification of the tinymetrics core

A shallow embedding of the tinymetrics crate (`src/timestamp.rs`,
`src/registry.rs`, `src/metric.rs`) together with proofs about the
spec's claims.

Modelling conventions:
* The atomic cells are modelled by their linearized sequential semantics:
  every atomic operation (`fetch_add`, `compare_exchange` retry loop,
  `fetch_max`, plain `load`/`store`) is a single step on explicit state.
  Any concurrent execution linearizes to some sequential order of these
  steps, so properties proved for all sequential orders cover all
  interleavings.
* `u64` / `usize` values are modelled as `Nat`; none of the operations in
  the modelled code perform wrapping arithmetic (the one subtraction that
  can underflow, `remaining_capacity`, is modelled explicitly in `Int`).
* `f64` is modelled as "NaN or an exact rational value"; Rust's `Display`
  for `f64` (shortest decimal string that round-trips) is modelled by the
  exact shortest decimal rendering of the rational, which agrees with the
  Rust output on every value whose decimal literal is semantically exact.
-/

namespace Tinymetrics

/-! ## `src/timestamp.rs`: `TimestampCell`

The cell state is the `u64` stored in the `now: AtomicU64` field.  The
time source `timestamp_fn` is external input, so each call to
`update_if_ahead` takes the reading `now` it observes as an argument.
-/

/-- `TimestampCell::update_if_ahead` (src/timestamp.rs:69-85), linearized:
the CAS retry loop atomically replaces `curr` with `now` iff `now > curr`.
Returns (whether the replacement happened, the resulting stored value). -/
def updateIfAhead (curr now : Nat) : Bool × Nat :=
  if now ≤ curr then (false, curr) else (true, now)

/-- `TimestampCell::update_max` (src/timestamp.rs:64-67): `fetch_max`. -/
def updateMax (curr now : Nat) : Nat :=
  Nat.max curr now

/-- The stored timestamp after a sequence of `update_if_ahead` calls whose
time source yields the readings `ts`, starting from stored value `s`. -/
def runUpdates (s : Nat) (ts : List Nat) : Nat :=
  ts.foldl (fun curr t => (updateIfAhead curr t).2) s

theorem updateIfAhead_snd (curr t : Nat) :
    (updateIfAhead curr t).2 = Nat.max curr t := by
  simp only [updateIfAhead]
  split
  · simp
    omega
  · simp
    omega

theorem runUpdates_eq_foldl_max (s : Nat) (ts : List Nat) :
    runUpdates s ts = ts.foldl Nat.max s := by
  induction ts generalizing s with
  | nil => rfl
  | cons t ts ih =>
    simp only [runUpdates, List.foldl_cons] at *
    rw [show (updateIfAhead s t).2 = Nat.max s t from updateIfAhead_snd s t]
    exact ih (Nat.max s t)

theorem foldl_max_mem (s : Nat) (ts : List Nat) :
    ts.foldl Nat.max s = s ∨ ts.foldl Nat.max s ∈ ts := by
  induction ts generalizing s with
  | nil => left; rfl
  | cons t ts ih =>
    simp only [List.foldl_cons]
    rcases ih (Nat.max s t) with h | h
    · rcases Nat.le_total t s with hm | hm
      · left; rw [h]; exact Nat.max_eq_left hm
      · right
        have hst : s.max t = t := Nat.max_eq_right hm
        rw [h, hst]
        exact List.mem_cons_self t ts
    · right; exact List.mem_cons_of_mem t h

theorem foldl_max_le (s : Nat) (ts : List Nat) :
    s ≤ ts.foldl Nat.max s ∧ ∀ t ∈ ts, t ≤ ts.foldl Nat.max s := by
  induction ts generalizing s with
  | nil => exact ⟨Nat.le_refl s, by simp⟩
  | cons t ts ih =>
    obtain ⟨h1, h2⟩ := ih (Nat.max s t)
    refine ⟨Nat.le_trans (Nat.le_max_left s t) h1, ?_⟩
    intro u hu
    rcases List.mem_cons.mp hu with rfl | hu
    · exact Nat.le_trans (Nat.le_max_right s u) h1
    · exact h2 u hu

/-- C1: for a fresh `TimestampCell` (stored value 0) receiving a sequence
of `update_if_ahead` calls with readings `ts ≠ []`, the final stored value
is the maximum of the readings (it is one of the readings and an upper
bound of all of them); moreover each individual call replaces the stored
value only if the reading is strictly greater than it, returning `true`,
and a call whose reading is ≤ the stored value returns `false` and leaves
it unchanged. -/
theorem update_if_ahead_monotonic_max (ts : List Nat) (hne : ts ≠ []) :
    (runUpdates 0 ts ∈ ts ∧ ∀ t ∈ ts, t ≤ runUpdates 0 ts) ∧
    (∀ curr t, t ≤ curr → updateIfAhead curr t = (false, curr)) ∧
    (∀ curr t, curr < t → updateIfAhead curr t = (true, t)) := by
  refine ⟨⟨?_, ?_⟩, ?_, ?_⟩
  · rw [runUpdates_eq_foldl_max]
    rcases foldl_max_mem 0 ts with h | h
    · -- the fold stayed at 0: every reading is ≤ 0, so every reading is 0
      obtain ⟨t, ts', rfl⟩ := List.exists_cons_of_ne_nil hne
      have hle := (foldl_max_le 0 (t :: ts')).2 t (List.mem_cons_self t ts')
      rw [h] at hle
      have : t = 0 := Nat.le_antisymm hle (Nat.zero_le t)
      rw [h, ← this]
      exact List.mem_cons_self t ts'
    · exact h
  · rw [runUpdates_eq_foldl_max]
    exact (foldl_max_le 0 ts).2
  · intro curr t h
    simp [updateIfAhead, h]
  · intro curr t h
    simp [updateIfAhead, Nat.not_le.mpr h]

/-- Witness for C1 at the concrete reading sequence `[2, 1, 3]`. -/
theorem update_if_ahead_monotonic_max_witness :
    (runUpdates 0 [2, 1, 3] ∈ [2, 1, 3] ∧
      ∀ t ∈ [2, 1, 3], t ≤ runUpdates 0 [2, 1, 3]) ∧
    (∀ curr t, t ≤ curr → updateIfAhead curr t = (false, curr)) ∧
    (∀ curr t, curr < t → updateIfAhead curr t = (true, t)) :=
  update_if_ahead_monotonic_max [2, 1, 3] (by decide)

/-! ## `src/registry.rs`: `Registry`

A `Slot<T>` (an `UnsafeCell<MaybeUninit<T>>` plus an `AtomicBool
initialized` flag) is modelled as `Option T`: `none` is an uninitialized
slot, `some v` an initialized one (the release/acquire pairing makes an
initialized slot's value fully visible, so the flag and the payload can be
modelled as one value).  The registry state is the slot array plus the
`next: AtomicUsize` counter.  `fetch_add` linearizes, so a concurrent
history of claims is some sequential order of `tryRegister` steps. -/

structure Registry (T : Type) where
  values : List (Option T)
  next : Nat
deriving DecidableEq

/-- Outcome of `Registry::try_register` (src/registry.rs:145-168).
`ok idx` models `Ok(&T)`: the returned reference is the permanently
stable slot `idx`.  `err v` models `Err(value)` (registry full, value
returned unchanged).  `panicked` models the
`assert!(!slot.initialized.load(Acquire))` firing. -/
inductive RegResult (T : Type) where
  | ok (idx : Nat)
  | err (v : T)
  | panicked
deriving DecidableEq

/-- `Registry::new` (src/registry.rs:64-69): `CAPACITY` uninitialized
slots, counter 0. -/
def Registry.new (T : Type) (cap : Nat) : Registry T :=
  ⟨List.replicate cap none, 0⟩

/-- `Registry::try_register` (src/registry.rs:145-168):
`fetch_add(1, AcqRel)` reserves index `idx`; `self.values.get(idx)` out of
range returns `Err(value)`; the `assert!` on an already-initialized slot
panics; otherwise the value is written and the slot published. -/
def Registry.tryRegister (r : Registry T) (v : T) : RegResult T × Registry T :=
  let idx := r.next
  match r.values[idx]? with
  | none => (.err v, ⟨r.values, idx + 1⟩)
  | some (some _) => (.panicked, ⟨r.values, idx + 1⟩)
  | some none => (.ok idx, ⟨r.values.set idx (some v), idx + 1⟩)

/-- `Registry::len` (src/registry.rs:201-203): `self.next.load(Acquire)`. -/
def Registry.len (r : Registry T) : Nat :=
  r.next

/-- `Registry::capacity` (src/registry.rs:258-260): the `CAPACITY` const
parameter, i.e. the slot array's length. -/
def Registry.capacity (r : Registry T) : Nat :=
  r.values.length

/-- `Registry::is_full` (src/registry.rs:306-308):
`self.len() == self.capacity()`. -/
def Registry.isFull (r : Registry T) : Bool :=
  r.len == r.capacity

/-- `Registry::remaining_capacity` (src/registry.rs:357-359) computes the
`usize` difference `self.capacity() - self.len()`; this models that
subtraction in `Int`, so Rust's underflow (panic in debug builds, wrap in
release builds) corresponds exactly to a negative result here. -/
def Registry.remainingCapacitySub (r : Registry T) : Int :=
  (r.capacity : Int) - (r.len : Int)

/-- A sequence of `try_register` calls with the values `vs`, in
linearization order, returning each call's result and the final state. -/
def Registry.registerAll (r : Registry T) : List T → List (RegResult T) × Registry T
  | [] => ([], r)
  | v :: vs =>
    let step := r.tryRegister v
    let rest := step.2.registerAll vs
    (step.1 :: rest.1, rest.2)

/-- Closed form of the registry state after the claims `ws` have been
linearized against a fresh registry of capacity `cap`: the first
`min ws.length cap` slots hold the first values of `ws`, the rest are
uninitialized, and the counter is `ws.length`. -/
def mkReg (cap : Nat) (ws : List T) : Registry T :=
  ⟨(ws.take cap).map some ++ List.replicate (cap - ws.length) none, ws.length⟩

/-- The result list of `registerAll` on a registry in `mkReg` form:
claim number `i` (counting from `start`) succeeds with index `start + i`
exactly when that index is below capacity, and is rejected with its value
otherwise. -/
def expectedResults (cap start : Nat) : List T → List (RegResult T)
  | [] => []
  | v :: vs =>
    (if start < cap then RegResult.ok start else RegResult.err v)
      :: expectedResults cap (start + 1) vs

theorem new_eq_mkReg (T : Type) (cap : Nat) :
    Registry.new T cap = mkReg cap [] := by
  simp [Registry.new, mkReg]

theorem getElemQ_map_some_append (a : List T) (k : Nat) :
    (a.map some ++ List.replicate k (none : Option T))[a.length]? =
      if 0 < k then some none else none := by
  induction a with
  | nil =>
    cases k with
    | zero => simp
    | succ k => simp [List.replicate_succ]
  | cons x a ih =>
    simpa using ih

theorem set_map_some_append (a : List T) (k : Nat) (hk : 0 < k) (v : T) :
    (a.map some ++ List.replicate k (none : Option T)).set a.length (some v) =
      (a ++ [v]).map some ++ List.replicate (k - 1) none := by
  induction a with
  | nil =>
    obtain ⟨k, rfl⟩ := Nat.exists_eq_succ_of_ne_zero (Nat.pos_iff_ne_zero.mp hk)
    simp [List.replicate_succ]
  | cons x a ih =>
    simpa using ih

/-- One `try_register` step from an `mkReg` state: reserve index
`ws.length`, succeed iff it is below capacity, and in both cases end in
the `mkReg` state of the extended claim history.  In particular the
`assert!` never fires. -/
theorem tryRegister_mkReg (cap : Nat) (ws : List T) (v : T) :
    (mkReg cap ws).tryRegister v =
      ((if ws.length < cap then RegResult.ok ws.length else RegResult.err v),
        mkReg cap (ws ++ [v])) := by
  by_cases h : ws.length < cap
  · have htake : ws.take cap = ws := List.take_of_length_le (Nat.le_of_lt h)
    have hpos : 0 < cap - ws.length := Nat.sub_pos_of_lt h
    have hget :
        ((ws.take cap).map some ++
          List.replicate (cap - ws.length) (none : Option T))[ws.length]? =
          some none := by
      rw [htake]
      have := getElemQ_map_some_append (a := ws) (k := cap - ws.length)
      rw [this, if_pos hpos]
    simp only [Registry.tryRegister, mkReg, hget, if_pos h]
    refine Prod.ext rfl ?_
    simp only [Registry.mk.injEq]
    constructor
    · rw [htake]
      have := set_map_some_append (a := ws) (k := cap - ws.length) hpos v
      rw [this]
      have htake2 : (ws ++ [v]).take cap = ws ++ [v] := by
        refine List.take_of_length_le ?_
        simp
        omega
      rw [htake2]
      congr 1
      congr 1
      simp
      omega
    · simp
  · have hlen :
        ((ws.take cap).map some ++
          List.replicate (cap - ws.length) (none : Option T)).length = cap := by
      simp
      omega
    have hget :
        ((ws.take cap).map some ++
          List.replicate (cap - ws.length) (none : Option T))[ws.length]? =
          none := by
      refine List.getElem?_eq_none ?_
      rw [hlen]
      omega
    simp only [Registry.tryRegister, mkReg, hget, if_neg h]
    refine Prod.ext rfl ?_
    simp only [Registry.mk.injEq]
    constructor
    · have htake2 : (ws ++ [v]).take cap = ws.take cap := by
        rw [List.take_append_eq_append_take]
        have : cap - ws.length = 0 := by omega
        simp [this]
      rw [htake2]
      have hsub : cap - (ws ++ [v]).length = cap - ws.length := by
        simp
        omega
      rw [hsub]
    · simp

/-- `registerAll` from an `mkReg` state yields the expected per-claim
results and the `mkReg` state of the full claim history. -/
theorem registerAll_mkReg (cap : Nat) (ws vs : List T) :
    (mkReg cap ws).registerAll vs =
      (expectedResults cap ws.length vs, mkReg cap (ws ++ vs)) := by
  induction vs generalizing ws with
  | nil => simp [Registry.registerAll, expectedResults]
  | cons v vs ih =>
    simp only [Registry.registerAll, expectedResults, tryRegister_mkReg]
    have := ih (ws ++ [v])
    rw [this]
    simp

theorem registerAll_new (T : Type) (cap : Nat) (vs : List T) :
    (Registry.new T cap).registerAll vs =
      (expectedResults cap 0 vs, mkReg cap vs) := by
  rw [new_eq_mkReg]
  have := registerAll_mkReg cap ([] : List T) vs
  simpa using this

/-- The slot indices handed out to the successful claims of a result
list, in order. -/
def okIndices : List (RegResult T) → List Nat
  | [] => []
  | RegResult.ok i :: rest => i :: okIndices rest
  | RegResult.err _ :: rest => okIndices rest
  | RegResult.panicked :: rest => okIndices rest

theorem okIndices_expected (cap : Nat) (vs : List T) :
    ∀ start, okIndices (expectedResults cap start vs) =
      List.range' start (min vs.length (cap - start)) := by
  induction vs with
  | nil => intro start; simp [expectedResults, okIndices]
  | cons v vs ih =>
    intro start
    by_cases h : start < cap
    · rw [expectedResults, if_pos h]
      rw [show okIndices (RegResult.ok start :: expectedResults cap (start + 1) vs) =
            start :: okIndices (expectedResults cap (start + 1) vs) from rfl]
      rw [ih (start + 1)]
      simp only [List.length_cons]
      have hn : min (vs.length + 1) (cap - start) =
          min vs.length (cap - (start + 1)) + 1 := by
        by_cases hc : vs.length + 1 ≤ cap - start
        · rw [min_eq_left hc, min_eq_left (by omega)]
        · push_neg at hc
          rw [min_eq_right (by omega), min_eq_right (by omega)]
          omega
      rw [hn, List.range'_succ]
    · rw [expectedResults, if_neg h]
      rw [show okIndices (RegResult.err v :: expectedResults cap (start + 1) vs) =
            okIndices (expectedResults cap (start + 1) vs) from rfl]
      rw [ih (start + 1)]
      simp only [List.length_cons]
      have h1 : min vs.length (cap - (start + 1)) = 0 := by
        rw [show cap - (start + 1) = 0 by omega]
        exact min_eq_right (Nat.zero_le _)
      have h2 : min (vs.length + 1) (cap - start) = 0 := by
        rw [show cap - start = 0 by omega]
        exact min_eq_right (Nat.zero_le _)
      rw [h1, h2]
      rfl

theorem panicked_not_mem_expected (cap : Nat) (vs : List T) :
    ∀ start, RegResult.panicked ∉ expectedResults cap start vs := by
  induction vs with
  | nil => intro start; simp [expectedResults]
  | cons v vs ih =>
    intro start hmem
    rcases List.mem_cons.mp hmem with h | h
    · by_cases hs : start < cap
      · rw [if_pos hs] at h; exact RegResult.noConfusion h
      · rw [if_neg hs] at h; exact RegResult.noConfusion h
    · exact ih (start + 1) h

theorem expected_getElemQ_ok (cap : Nat) (vs : List T) :
    ∀ start k, start + k < cap → k < vs.length →
      (expectedResults cap start vs)[k]? = some (RegResult.ok (start + k)) := by
  induction vs with
  | nil => intro start k _ hk; simp at hk
  | cons v vs ih =>
    intro start k hcap hk
    cases k with
    | zero => simp [expectedResults, if_pos (show start < cap by omega)]
    | succ k =>
      rw [expectedResults, List.getElem?_cons_succ]
      have hk2 : k < vs.length := by
        simp only [List.length_cons] at hk
        omega
      rw [ih (start + 1) k (by omega) hk2]
      have : start + 1 + k = start + (k + 1) := by omega
      rw [this]

theorem expected_getElemQ_err (cap : Nat) (vs : List T) :
    ∀ start k v, ¬ start + k < cap → vs[k]? = some v →
      (expectedResults cap start vs)[k]? = some (RegResult.err v) := by
  induction vs with
  | nil => intro start k v _ hv; simp at hv
  | cons w vs ih =>
    intro start k v hcap hv
    cases k with
    | zero =>
      rw [List.getElem?_cons_zero, Option.some_inj] at hv
      rw [expectedResults, if_neg (show ¬ start < cap by omega),
        List.getElem?_cons_zero, hv]
    | succ k =>
      rw [List.getElem?_cons_succ] at hv
      rw [expectedResults, List.getElem?_cons_succ]
      exact ih (start + 1) k v (by omega) hv

/-- C3: a `Registry` of capacity `N` accepts exactly `N` claims: given
`N + 1` values, the first `N` `try_register` calls succeed (call `k`
returning a reference to slot `k`, and the final slot array stores
exactly the first `N` values in order, so the rejected call modified no
slot), the `(N+1)`-th call returns `Err` carrying the original value
unchanged, and before any rejection `len()` equals the number of
successful claims. -/
theorem try_register_capacity_boundary (T : Type) (N : Nat) (vs : List T)
    (h : vs.length = N + 1) :
    (∀ k, k < N →
      ((Registry.new T N).registerAll vs).1[k]? = some (RegResult.ok k)) ∧
    ((Registry.new T N).registerAll vs).2.values = (vs.take N).map some ∧
    (∀ v, vs[N]? = some v →
      ((Registry.new T N).registerAll vs).1[N]? = some (RegResult.err v)) ∧
    (∀ k, k ≤ N → ((Registry.new T N).registerAll (vs.take k)).2.len = k) := by
  refine ⟨?_, ?_, ?_, ?_⟩
  · intro k hk
    rw [registerAll_new]
    have := expected_getElemQ_ok N vs 0 k (by omega) (by omega)
    simpa using this
  · rw [registerAll_new]
    have hz : N - vs.length = 0 := by omega
    simp [mkReg, hz]
  · intro v hv
    rw [registerAll_new]
    exact expected_getElemQ_err N vs 0 N v (by omega)
      (by simpa using hv)
  · intro k hk
    rw [registerAll_new]
    simp only [Registry.len, mkReg, List.length_take]
    omega

/-- Witness for C3 at `N = 2`, `vs = [10, 20, 30]`. -/
theorem try_register_capacity_boundary_witness :
    (∀ k, k < 2 →
      ((Registry.new Nat 2).registerAll [10, 20, 30]).1[k]? =
        some (RegResult.ok k)) ∧
    ((Registry.new Nat 2).registerAll [10, 20, 30]).2.values =
      ([10, 20, 30].take 2).map some ∧
    (∀ v, [10, 20, 30][2]? = some v →
      ((Registry.new Nat 2).registerAll [10, 20, 30]).1[2]? =
        some (RegResult.err v)) ∧
    (∀ k, k ≤ 2 →
      ((Registry.new Nat 2).registerAll ([10, 20, 30].take k)).2.len = k) :=
  try_register_capacity_boundary Nat 2 [10, 20, 30] (by decide)

/-- The registry state reached by two claims against a capacity-1
registry: the second claim is rejected, yet it bumped the counter to 2. -/
def c4Reg : Registry Nat :=
  ((Registry.new Nat 1).registerAll [5, 7]).2

/-- C4 counterexample: after a rejected claim on a capacity-1 registry the
counter is 2, and `len()` returns the raw counter value 2 — not the value
clamped to `[0, CAPACITY]`, which would be 1. -/
theorem len_clamped_counterexample :
    c4Reg.len = 2 ∧ c4Reg.capacity = 1 ∧
      c4Reg.len ≠ min c4Reg.next c4Reg.capacity := by
  decide

/-- C4 amended: `len()` returns the claim counter's raw current value —
the total number of claim attempts, successes and rejections alike — with
no clamping, so it exceeds `CAPACITY` once claims have been rejected. -/
theorem len_counts_all_claims (T : Type) (cap : Nat) (vs : List T) :
    ((Registry.new T cap).registerAll vs).2.len = vs.length := by
  rw [registerAll_new]
  rfl

/-- C9: a rejected claim on a full registry of capacity `cap` returns
`Err` but still leaves the counter at `cap + 1`, from which state
`is_full()` returns `false` (its equality test `len() == capacity()`
fails) and the subtraction `capacity() - len()` inside
`remaining_capacity` is negative, i.e. the `usize` subtraction
underflows. -/
theorem rejected_claim_skews_counters (T : Type) (cap : Nat) (vs : List T)
    (h : vs.length = cap) (v : T) :
    ((((Registry.new T cap).registerAll vs).2).tryRegister v).1 =
      RegResult.err v ∧
    ((((Registry.new T cap).registerAll vs).2).tryRegister v).2.len =
      cap + 1 ∧
    ((((Registry.new T cap).registerAll vs).2).tryRegister v).2.isFull =
      false ∧
    ((((Registry.new T cap).registerAll vs).2).tryRegister v).2.remainingCapacitySub
      < 0 := by
  rw [registerAll_new, tryRegister_mkReg, if_neg (by omega)]
  have hcap :
      (mkReg cap (vs ++ [v]) : Registry T).capacity = cap := by
    simp only [Registry.capacity, mkReg, List.length_append, List.length_map,
      List.length_take, List.length_replicate]
    simp
    omega
  refine ⟨rfl, ?_, ?_, ?_⟩
  · simp only [Registry.len, mkReg, List.length_append, List.length_cons]
    simp
    omega
  · simp only [Registry.isFull, hcap]
    have hlen : (mkReg cap (vs ++ [v]) : Registry T).len = cap + 1 := by
      simp only [Registry.len, mkReg]
      simp
      omega
    rw [hlen]
    simp
  · simp only [Registry.remainingCapacitySub, hcap]
    have hlen : (mkReg cap (vs ++ [v]) : Registry T).len = cap + 1 := by
      simp only [Registry.len, mkReg]
      simp
      omega
    rw [hlen]
    omega

/-- Witness for C9 at `cap = 1`, `vs = [5]`, rejected value 7. -/
theorem rejected_claim_skews_counters_witness :
    ((((Registry.new Nat 1).registerAll [5]).2).tryRegister 7).1 =
      RegResult.err 7 ∧
    ((((Registry.new Nat 1).registerAll [5]).2).tryRegister 7).2.len = 2 ∧
    ((((Registry.new Nat 1).registerAll [5]).2).tryRegister 7).2.isFull =
      false ∧
    ((((Registry.new Nat 1).registerAll [5]).2).tryRegister 7).2.remainingCapacitySub
      < 0 :=
  rejected_claim_skews_counters Nat 1 [5] (by decide) 7

/-- C10: the atomic `fetch_add` on the claim counter linearizes, so any
concurrent history of claims is some sequential order `vs` of
`try_register` steps; for every such order against a fresh registry of
capacity `cap`, the successful claims receive exactly the indices
`0 .. k-1` with `k = min |vs| cap ≤ cap`, with no duplicate index ever
assigned, and the already-initialized-slot assertion never fires. -/
theorem claim_indices_unique (T : Type) (cap : Nat) (vs : List T) :
    okIndices ((Registry.new T cap).registerAll vs).1 =
      List.range (min vs.length cap) ∧
    (okIndices ((Registry.new T cap).registerAll vs).1).Nodup ∧
    min vs.length cap ≤ cap ∧
    RegResult.panicked ∉ ((Registry.new T cap).registerAll vs).1 := by
  have hok : okIndices ((Registry.new T cap).registerAll vs).1 =
      List.range (min vs.length cap) := by
    rw [registerAll_new]
    have := okIndices_expected cap vs 0
    rw [this, List.range_eq_range']
    simp
  refine ⟨hok, ?_, min_le_right _ _, ?_⟩
  · rw [hok]
    exact List.nodup_range _
  · rw [registerAll_new]
    exact panicked_not_mem_expected cap vs 0

/-! ## `src/metric.rs`: metric state machines

`f64` is modelled as NaN or an exact rational.  The metric structs mirror
the source fields: the `AtomicF64` / `AtomicUsize` value, the
`AtomicBool recorded` flag, and the optional `TimestampCell` (present iff
the builder has a `timestamp_fn`; a fresh cell stores 0).  As with
`updateIfAhead`, the reading the time source yields during a `set_value`
call is passed as the `now` argument. -/

/-- Model of `f64`: NaN, or an exact rational value.  (The crate never
does float arithmetic — values are only stored, loaded, compared to NaN
and displayed — so the exact-rational abstraction is faithful for every
value whose decimal notation is semantically exact.) -/
inductive F64 where
  | nan
  | num (q : ℚ)
deriving DecidableEq

/-- `f64::is_nan`. -/
def F64.isNan : F64 → Bool
  | .nan => true
  | .num _ => false

/-- `Gauge` (src/metric.rs:68-75): `value: AtomicF64`,
`recorded: AtomicBool`, `timestamp: Option<TimestampCell>` (the model
keeps the cell's stored `u64`). -/
structure Gauge where
  value : F64
  recorded : Bool
  timestamp : Option Nat
deriving DecidableEq

/-- `Gauge::from_builder` / `Metric::build` (src/metric.rs:420-427):
value = NaN, recorded = false, and a fresh `TimestampCell` (storing 0)
iff the builder has a `timestamp_fn`. -/
def Gauge.build (hasTimestamp : Bool) : Gauge :=
  ⟨F64.nan, false, if hasTimestamp then some 0 else none⟩

/-- `Gauge::set_value` (src/metric.rs:429-438): if a timestamp cell is
present, run `update_if_ahead` with the time source's reading `now`; if
it reports no advance, return without touching anything; otherwise store
the value and then set the recorded flag. -/
def Gauge.setValue (g : Gauge) (now : Nat) (x : F64) : Gauge :=
  match g.timestamp with
  | some stored =>
    match updateIfAhead stored now with
    | (false, _) => g
    | (true, newTs) => ⟨x, true, some newTs⟩
  | none => ⟨x, true, none⟩

/-- `Metric::has_been_recorded` for `Gauge` (src/metric.rs:448-450):
`!self.value().is_nan() || self.recorded.load(Acquire)`. -/
def Gauge.hasBeenRecorded (g : Gauge) : Bool :=
  !g.value.isNan || g.recorded

/-- `IntGauge` (src/metric.rs:85-91): `value: AtomicUsize`,
`recorded: AtomicBool`, optional `TimestampCell`. -/
structure IntGauge where
  value : Nat
  recorded : Bool
  timestamp : Option Nat
deriving DecidableEq

/-- `IntGauge::from_builder` (src/metric.rs:539-546): value 0, recorded
false, fresh timestamp cell iff the builder has a `timestamp_fn`. -/
def IntGauge.build (hasTimestamp : Bool) : IntGauge :=
  ⟨0, false, if hasTimestamp then some 0 else none⟩

/-- `IntGauge::set_value` (src/metric.rs:548-557): same gate as
`Gauge::set_value`, then store value and set recorded. -/
def IntGauge.setValue (g : IntGauge) (now : Nat) (x : Nat) : IntGauge :=
  match g.timestamp with
  | some stored =>
    match updateIfAhead stored now with
    | (false, _) => g
    | (true, newTs) => ⟨x, true, some newTs⟩
  | none => ⟨x, true, none⟩

/-- `Metric::has_been_recorded` for `IntGauge` (src/metric.rs:567-569):
`self.value() != 0 || self.recorded.load(Acquire)`. -/
def IntGauge.hasBeenRecorded (g : IntGauge) : Bool :=
  g.value != 0 || g.recorded

/-- C2: a freshly built `Gauge` or `IntGauge` (with or without a
timestamp cell) reports `has_been_recorded() = false`; after exactly one
`set_value` call whose timestamp gate (if any) accepts the update, it
reports `has_been_recorded() = true` and holds the value that was set —
for every value, including 0 (IntGauge) and 0.0 or NaN (Gauge). -/
theorem gauge_recorded_semantics (ht : Bool) (x : F64) (xi now : Nat)
    (h : ht = true → 0 < now) :
    (Gauge.build ht).hasBeenRecorded = false ∧
    (IntGauge.build ht).hasBeenRecorded = false ∧
    ((Gauge.build ht).setValue now x).hasBeenRecorded = true ∧
    ((Gauge.build ht).setValue now x).value = x ∧
    ((IntGauge.build ht).setValue now xi).hasBeenRecorded = true ∧
    ((IntGauge.build ht).setValue now xi).value = xi := by
  cases ht
  · simp [Gauge.build, IntGauge.build, Gauge.setValue, IntGauge.setValue,
      Gauge.hasBeenRecorded, IntGauge.hasBeenRecorded, F64.isNan]
  · have hnow : ¬ now ≤ 0 := by
      have := h rfl
      omega
    simp [Gauge.build, IntGauge.build, Gauge.setValue, IntGauge.setValue,
      Gauge.hasBeenRecorded, IntGauge.hasBeenRecorded, updateIfAhead, hnow,
      F64.isNan]

/-- Witness for C2 at the edge values: a timestamped gauge set to NaN and
a timestamped int gauge set to 0, with time reading 1. -/
theorem gauge_recorded_semantics_witness :
    (Gauge.build true).hasBeenRecorded = false ∧
    (IntGauge.build true).hasBeenRecorded = false ∧
    ((Gauge.build true).setValue 1 F64.nan).hasBeenRecorded = true ∧
    ((Gauge.build true).setValue 1 F64.nan).value = F64.nan ∧
    ((IntGauge.build true).setValue 1 0).hasBeenRecorded = true ∧
    ((IntGauge.build true).setValue 1 0).value = 0 :=
  gauge_recorded_semantics true F64.nan 0 1 (fun _ => Nat.one_pos)

/-- C5: on a timestamped `Gauge` or `IntGauge` whose stored timestamp is
`s`, a `set_value` call whose time reading `now` satisfies `now ≤ s` is a
complete no-op: the value, the recorded flag and the stored timestamp are
all left unchanged. -/
theorem stale_set_value_noop (v : F64) (rec : Bool) (s now : Nat)
    (x : F64) (vi xi : Nat) (reci : Bool) (h : now ≤ s) :
    Gauge.setValue ⟨v, rec, some s⟩ now x = ⟨v, rec, some s⟩ ∧
    IntGauge.setValue ⟨vi, reci, some s⟩ now xi = ⟨vi, reci, some s⟩ := by
  constructor
  · simp [Gauge.setValue, updateIfAhead, h]
  · simp [IntGauge.setValue, updateIfAhead, h]

/-- Witness for C5: a gauge holding 1 recorded at timestamp 5 ignores a
`set_value` whose reading is also 5. -/
theorem stale_set_value_noop_witness :
    Gauge.setValue ⟨F64.num 1, true, some 5⟩ 5 (F64.num 2) =
      ⟨F64.num 1, true, some 5⟩ ∧
    IntGauge.setValue ⟨3, false, some 5⟩ 5 9 = ⟨3, false, some 5⟩ :=
  stale_set_value_noop (F64.num 1) true 5 5 (F64.num 2) 3 9 false
    (Nat.le_refl 5)

/-! ## `src/metric.rs`: `FmtLabels` and `MetricFamily::fmt_metric`

The `FmtLabels` trait (a label-formatting function plus `is_empty`) is
modelled as an explicit dictionary; each source impl becomes one
dictionary value.  Formatting to a `fmt::Write` writer is modelled as
producing the written `String`. -/

/-- The `FmtLabels` trait (src/metric.rs:44-50) as a dictionary. -/
structure LabelFmt (L : Type) where
  fmtLabels : L → String
  isEmpty : L → Bool

/-- `impl FmtLabels for (K, V)` (src/metric.rs:133-146): writes
`key="value"`; `is_empty` is `false`. -/
def pairLabels : LabelFmt (String × String) :=
  ⟨fun kv => kv.1 ++ "=\"" ++ kv.2 ++ "\"", fun _ => false⟩

/-- `impl FmtLabels for &[L]` (src/metric.rs:103-121): the labels joined
by commas; `is_empty` is the slice's emptiness. -/
def sliceLabels (inner : LabelFmt L) : LabelFmt (List L) :=
  ⟨fun ls => String.intercalate "," (ls.map inner.fmtLabels),
    fun ls => ls.isEmpty⟩

/-- `impl FmtLabels for [L; LEN]` (src/metric.rs:123-131): formats via
the slice impl; `is_empty` returns `LEN > 0` — the literal source text.
The array is modelled as a list whose length is `LEN`. -/
def arrayLabels (inner : LabelFmt L) : LabelFmt (List L) :=
  ⟨fun ls => (sliceLabels inner).fmtLabels ls, fun ls => decide (0 < ls.length)⟩

/-- `impl FmtLabels for ()` (src/metric.rs:148-156): writes nothing;
`is_empty` is `true`. -/
def unitLabels : LabelFmt Unit :=
  ⟨fun _ => "", fun _ => true⟩

/-- The `Metric` trait (src/metric.rs:56-66) as a dictionary. -/
structure MetricOps (M : Type) where
  TYPE : String
  hasBeenRecorded : M → Bool
  fmtMetric : M → String

/-- Zero-padding on the left to `k` digits, for the fractional part of a
decimal rendering. -/
def padZeros (s : String) (k : Nat) : String :=
  (List.replicate (k - s.length) (Char.ofNat 48)).asString ++ s

/-- Smallest scaling exponent `k ≤ fuel` (with `10 ^ k`) making
`den ∣ 10 ^ k`; every `f64` value is a dyadic rational, so for genuine
float values a `fuel` of 1100 always suffices. -/
def scaleAux (den : Nat) : Nat → Nat → Nat → Nat × Nat
  | pow, k, 0 => (k, pow)
  | pow, k, fuel + 1 =>
    if den ∣ pow then (k, pow) else scaleAux den (pow * 10) (k + 1) fuel

/-- The exact decimal rendering of a rational with terminating decimal
expansion, without trailing fractional zeros and without a decimal point
for integers.  This models Rust's `Display for f64` (the shortest decimal
string that round-trips): on every `f64` whose decimal literal is
semantically exact the two agree (e.g. `10.0 ↦ "10"`, `22.2 ↦ "22.2"`). -/
def decimalOfRat (q : ℚ) : String :=
  let sign := if q.num < 0 then "-" else ""
  let n := q.num.natAbs
  let kp := scaleAux q.den 1 0 1100
  let m := n * kp.2 / q.den
  if kp.1 = 0 then sign ++ toString m
  else sign ++ toString (m / kp.2) ++ "." ++ padZeros (toString (m % kp.2)) kp.1

/-- Rust's `Display for f64` on the model: `"NaN"` for NaN, the decimal
rendering otherwise. -/
def F64.display : F64 → String
  | .nan => "NaN"
  | .num q => decimalOfRat q

/-- `Metric::fmt_metric` for `Gauge` (src/metric.rs:452-461): the value,
then a space and the cell's timestamp when a cell is present. -/
def Gauge.fmtMetric (g : Gauge) : String :=
  g.value.display ++
    (match g.timestamp with
      | some t => " " ++ toString t
      | none => "")

/-- The `Metric` impl for `Gauge` (src/metric.rs:445-466):
`TYPE = "gauge"`. -/
def gaugeOps : MetricOps Gauge :=
  ⟨"gauge", Gauge.hasBeenRecorded, Gauge.fmtMetric⟩

/-- One metric line of `MetricFamily::fmt_metric` (src/metric.rs:271-286):
the family name, the labels in braces unless `is_empty`, a space, the
metric body, a newline. -/
def metricLine (lf : LabelFmt L) (name : String) (l : L) (body : String) :
    String :=
  name ++
    (if !lf.isEmpty l then "\x7b" ++ lf.fmtLabels l ++ "\x7d" else "") ++
    " " ++ body ++ "\n"

/-- `MetricFamily::fmt_metric` (src/metric.rs:257-291): the
`# TYPE` / `# UNIT` / `# HELP` header, one line per initialized entry
that `has_been_recorded`, in slot order, then one final newline. -/
def fmtFamily (ops : MetricOps M) (lf : LabelFmt L)
    (name unit help : String) (r : Registry (L × M)) : String :=
  "# TYPE " ++ name ++ " " ++ ops.TYPE ++ "\n# UNIT " ++ name ++ " " ++
      unit ++ "\n# HELP " ++ name ++ " " ++ help ++ "\n" ++
    String.join ((r.values.filterMap id).filterMap fun e =>
      if ops.hasBeenRecorded e.2 then
        some (metricLine lf name e.1 (ops.fmtMetric e.2))
      else none) ++
    "\n"

/-- C7 (code bug): `is_empty` for the fixed-size-array `FmtLabels` impl
is inverted.  A one-element array label set reports `is_empty = true`, so
`fmt_metric` omits its labels and braces entirely, while the empty array
reports `is_empty = false`; the spec (and every other impl of the trait)
requires `is_empty` to hold exactly for label sets with no labels. -/
theorem array_is_empty_inverted :
    (arrayLabels pairLabels).isEmpty [("metric", "1")] = true ∧
    (arrayLabels pairLabels).isEmpty ([] : List (String × String)) = false ∧
    metricLine (arrayLabels pairLabels) "test_gauge" [("metric", "1")] "10" =
      "test_gauge 10\n" ∧
    metricLine (sliceLabels pairLabels) "test_gauge" [("metric", "1")] "10" =
      "test_gauge\x7bmetric=\"1\"\x7d 10\n" :=
  ⟨rfl, rfl, rfl, rfl⟩

/-! ## `src/registry.rs`: `RegistryMap`

A `RegistryMap<K, V>` is a `Registry<(K, V)>`; `get_or_register_with`
scans the initialized slots in index order for an equal key and claims a
new slot when none matches.  The `FnOnce` initializer is modelled as a
function whose evaluation is recorded in the call result, so "the
initializer was never evaluated" is an observable fact of the model. -/

/-- The index of the first initialized slot whose key equals `key`, in
the order `RegistryMap::iter` visits slots (uninitialized slots are
skipped but scanning continues past them). -/
def findEntry [DecidableEq K] : List (Option (K × V)) → K → Option Nat
  | [], _ => none
  | some e :: rest, key =>
    if key = e.1 then some 0 else (findEntry rest key).map (· + 1)
  | none :: rest, key => (findEntry rest key).map (· + 1)

/-- Outcome of `RegistryMap::get_or_register_with`
(src/registry.rs:440-452): an existing entry was found, a new entry was
inserted (`Some(&V)` in both cases, the index naming the underlying
slot), the map was full (`None`), or the underlying claim panicked. -/
inductive MapOutcome where
  | found (idx : Nat)
  | inserted (idx : Nat)
  | full
  | panicked
deriving DecidableEq

/-- Result of one `get_or_register_with` call: the outcome, whether the
`init` closure was evaluated, and the map state after the call. -/
structure MapCall (K V : Type) where
  outcome : MapOutcome
  evaluatedInit : Bool
  state : Registry (K × V)

/-- `RegistryMap::get_or_register_with` (src/registry.rs:440-452): scan
the initialized entries comparing keys; on a match return the existing
entry without evaluating `init`; otherwise evaluate `init` and
`try_register` the pair. -/
def getOrRegisterWith [DecidableEq K] (m : Registry (K × V)) (key : K)
    (init : Unit → V) : MapCall K V :=
  match findEntry m.values key with
  | some i => ⟨MapOutcome.found i, false, m⟩
  | none =>
    match m.tryRegister (key, init ()) with
    | (RegResult.ok idx, m2) => ⟨MapOutcome.inserted idx, true, m2⟩
    | (RegResult.err _, m2) => ⟨MapOutcome.full, true, m2⟩
    | (RegResult.panicked, m2) => ⟨MapOutcome.panicked, true, m2⟩

theorem tryRegister_ok_inv (r : Registry T) (v : T) (idx : Nat)
    (r2 : Registry T) (h : r.tryRegister v = (RegResult.ok idx, r2)) :
    idx = r.next ∧ r.values[idx]? = some none ∧
      r2 = ⟨r.values.set idx (some v), idx + 1⟩ := by
  rcases hv : r.values[r.next]? with _ | s
  · rw [Registry.tryRegister] at h
    simp only [hv, Prod.mk.injEq] at h
    exact absurd h.1 (by intro hh; exact RegResult.noConfusion hh)
  · rcases s with _ | w
    · rw [Registry.tryRegister] at h
      simp only [hv, Prod.mk.injEq] at h
      obtain ⟨h1, h2⟩ := h
      obtain rfl : idx = r.next := (RegResult.ok.injEq _ _).mp h1.symm
      exact ⟨rfl, hv, h2.symm⟩
    · rw [Registry.tryRegister] at h
      simp only [hv, Prod.mk.injEq] at h
      exact absurd h.1 (by intro hh; exact RegResult.noConfusion hh)

theorem findEntry_set [DecidableEq K] (l : List (Option (K × V)))
    (key : K) (v : V) :
    ∀ idx, findEntry l key = none → idx < l.length →
      findEntry (l.set idx (some (key, v))) key = some idx := by
  induction l with
  | nil => intro idx _ hidx; simp at hidx
  | cons a rest ih =>
    intro idx hnone hidx
    cases idx with
    | zero =>
      simp only [List.set_cons_zero, findEntry]
      simp
    | succ idx =>
      rw [List.set_cons_succ]
      cases a with
      | none =>
        rw [findEntry] at hnone ⊢
        have hr : findEntry rest key = none := by
          cases hfr : findEntry (V := V) rest key with
          | none => rfl
          | some j => rw [hfr] at hnone; simp at hnone
        rw [ih idx hr (by simpa using hidx)]
        rfl
      | some e =>
        rw [findEntry] at hnone ⊢
        by_cases hk : key = e.1
        · rw [if_pos hk] at hnone
          exact Option.noConfusion hnone
        · rw [if_neg hk] at hnone ⊢
          have hr : findEntry rest key = none := by
            cases hfr : findEntry (V := V) rest key with
            | none => rfl
            | some j => rw [hfr] at hnone; simp at hnone
          rw [ih idx hr (by simpa using hidx)]
          rfl

/-- C6: if a `get_or_register_with` call inserted a fresh entry at slot
`idx` (key absent, map not full), then a second call with the same key —
with any initializer — finds that same slot `idx` (the returned
references are the same underlying storage), never evaluates its
initializer, and leaves the map state unchanged. -/
theorem get_or_register_with_idempotent [DecidableEq K]
    (m : Registry (K × V)) (key : K) (init init2 : Unit → V) (idx : Nat)
    (h : (getOrRegisterWith m key init).outcome = MapOutcome.inserted idx) :
    (getOrRegisterWith ((getOrRegisterWith m key init).state) key
        init2).outcome = MapOutcome.found idx ∧
    (getOrRegisterWith ((getOrRegisterWith m key init).state) key
        init2).evaluatedInit = false ∧
    (getOrRegisterWith ((getOrRegisterWith m key init).state) key
        init2).state = (getOrRegisterWith m key init).state := by
  rcases hfind : findEntry m.values key with _ | i
  case some =>
    have hout : (getOrRegisterWith m key init).outcome = MapOutcome.found i := by
      simp only [getOrRegisterWith, hfind]
    rw [hout] at h
    exact absurd h (by intro hh; exact MapOutcome.noConfusion hh)
  case none =>
    rcases htr : m.tryRegister (key, init ()) with ⟨res, m2⟩
    cases res with
    | err v =>
      have hout : (getOrRegisterWith m key init).outcome = MapOutcome.full := by
        simp only [getOrRegisterWith, hfind, htr]
      rw [hout] at h
      exact absurd h (by intro hh; exact MapOutcome.noConfusion hh)
    | panicked =>
      have hout : (getOrRegisterWith m key init).outcome = MapOutcome.panicked := by
        simp only [getOrRegisterWith, hfind, htr]
      rw [hout] at h
      exact absurd h (by intro hh; exact MapOutcome.noConfusion hh)
    | ok j =>
      have hout : (getOrRegisterWith m key init).outcome =
          MapOutcome.inserted j := by
        simp only [getOrRegisterWith, hfind, htr]
      rw [hout] at h
      obtain rfl : j = idx := (MapOutcome.inserted.injEq _ _).mp h
      have hstate : (getOrRegisterWith m key init).state = m2 := by
        simp only [getOrRegisterWith, hfind, htr]
      obtain ⟨hnext, hslot, hm2⟩ := tryRegister_ok_inv m _ j m2 htr
      have hlt : j < m.values.length := by
        by_contra hge
        rw [List.getElem?_eq_none (Nat.le_of_not_lt hge)] at hslot
        exact Option.noConfusion hslot
      have hf2 : findEntry m2.values key = some j := by
        rw [hm2]
        exact findEntry_set m.values key (init ()) j hfind hlt
      have hcall2 : getOrRegisterWith m2 key init2 =
          ⟨MapOutcome.found j, false, m2⟩ := by
        simp only [getOrRegisterWith, hf2]
      rw [hstate, hcall2]
      exact ⟨rfl, rfl, rfl⟩

/-- Witness for C6: on a fresh capacity-1 map, registering key 42 inserts
at slot 0 and the repeated lookup finds slot 0 without evaluating its
initializer. -/
theorem get_or_register_with_idempotent_witness :
    (getOrRegisterWith
        ((getOrRegisterWith (Registry.new (Nat × Nat) 1) 42
          (fun _ => 7)).state) 42 (fun _ => 9)).outcome =
      MapOutcome.found 0 ∧
    (getOrRegisterWith
        ((getOrRegisterWith (Registry.new (Nat × Nat) 1) 42
          (fun _ => 7)).state) 42 (fun _ => 9)).evaluatedInit = false ∧
    (getOrRegisterWith
        ((getOrRegisterWith (Registry.new (Nat × Nat) 1) 42
          (fun _ => 7)).state) 42 (fun _ => 9)).state =
      (getOrRegisterWith (Registry.new (Nat × Nat) 1) 42
        (fun _ => 7)).state :=
  get_or_register_with_idempotent (Registry.new (Nat × Nat) 1) 42
    (fun _ => 7) (fun _ => 9) 0 rfl

/-! ## The round-trip formatting scenario (`src/metric/tests.rs:4-32`)

A `GaugeFamily` named `test_gauge` with help `"a test gauge"`, unit
`"tests"` and no timestamps; two label slices are registered and their
gauges set to 10.0 and 22.2.  Setting a value through the reference
returned by `register` is modelled by updating the slot the call
returned. -/

/-- Mutating the metric stored in slot `idx` through the reference
`register` returned. -/
def Registry.modifySlot (r : Registry T) (idx : Nat) (f : T → T) :
    Registry T :=
  match r.values[idx]? with
  | some (some v) => ⟨r.values.set idx (some (f v)), r.next⟩
  | _ => r

def c8Labels1 : List (String × String) := [("metric", "1"), ("label2", "foo")]

def c8Labels2 : List (String × String) := [("metric", "2"), ("label2", "bar")]

/-- `family.register(&[("metric","1"),("label2","foo")])` against the
fresh capacity-2 family (no timestamps). -/
def c8Step1 : MapCall (List (String × String)) Gauge :=
  getOrRegisterWith (Registry.new (List (String × String) × Gauge) 2)
    c8Labels1 (fun _ => Gauge.build false)

/-- `metric1.set_value(10.0)` through the returned reference (slot 0). -/
def c8Step2 : Registry (List (String × String) × Gauge) :=
  c8Step1.state.modifySlot 0 (fun e => (e.1, e.2.setValue 0 (F64.num 10)))

/-- `family.register(&[("metric","2"),("label2","bar")])`. -/
def c8Step3 : MapCall (List (String × String)) Gauge :=
  getOrRegisterWith c8Step2 c8Labels2 (fun _ => Gauge.build false)

/-- `metric2.set_value(22.2)` through the returned reference (slot 1). -/
def c8Step4 : Registry (List (String × String) × Gauge) :=
  c8Step3.state.modifySlot 1 (fun e => (e.1, e.2.setValue 0 (F64.num (mkRat 222 10))))

/-- C8: the two `register` calls claim slots 0 and 1, and the exported
text of the family is exactly the TYPE line, the UNIT line, the HELP
line, the two metric lines with brace-enclosed labels and the values
rendered as `10` and `22.2`, and a single trailing blank line. -/
theorem gauge_family_export_text :
    c8Step1.outcome = MapOutcome.inserted 0 ∧
    c8Step3.outcome = MapOutcome.inserted 1 ∧
    fmtFamily gaugeOps (sliceLabels pairLabels) "test_gauge" "tests"
        "a test gauge" c8Step4 =
      "# TYPE test_gauge gauge\n# UNIT test_gauge tests\n# HELP test_gauge a test gauge\ntest_gauge\x7bmetric=\"1\",label2=\"foo\"\x7d 10\ntest_gauge\x7bmetric=\"2\",label2=\"bar\"\x7d 22.2\n\n" := by
  refine ⟨rfl, rfl, ?_⟩
  set_option maxRecDepth 10000 in decide

end Tinymetrics
